import Mathlib

/-!
Verification of the hybrid P2P chat tracker/client (`peer_tracker.py`,
`chat_client.py`).

The tracker keeps `self.peers`, a Python dict mapping `peer_id` to a record
dict with fields `ip`, `port`, `last_seen`.  We embed that dict as an
insertion-ordered association list `List (String × PeerRecord)`; a Python
dict always has distinct keys, which here is the predicate `NodupKeys`.
Timestamps (`time.time()`) are embedded as `Int` seconds: every comparison
the code performs on them is order-based, so the integer model is faithful
for the eviction logic.

Python dict primitives used by the code:
  * `d[k] = v`    — `dictSet` (overwrite in place if the key is present,
                    else append at the end, as insertion order dictates);
  * `d.get(k)` / `d[k]` after a membership test — `lookupAssoc`;
  * `k in d`      — `containsKey`;
  * `del d[k]`    — `delKey`.
-/

namespace P2PChat

/-- A tracker-side record: the value of `self.peers[peer_id]` in
`peer_tracker.py` (`ip`, `port`, `last_seen`). -/
structure PeerRecord where
  ip : String
  port : Int
  last_seen : Int
deriving DecidableEq, Repr

/-- The tracker registry `self.peers`: an insertion-ordered dict
`peer_id -> PeerRecord`, embedded as an association list. -/
abbrev Registry := List (String × PeerRecord)

/-- First-match association-list lookup (Python `d.get(k)` / `d[k]`). -/
def lookupAssoc {α : Type} : List (String × α) → String → Option α
  | [], _ => none
  | p :: rest, k => if p.1 = k then some p.2 else lookupAssoc rest k

/-- Python `k in d`. -/
def containsKey {α : Type} (l : List (String × α)) (k : String) : Bool :=
  (l.map Prod.fst).contains k

/-- Python `d[k] = v`: overwrite in place when the key is present
(keeping its position, like a Python dict), otherwise append. -/
def dictSet {α : Type} (l : List (String × α)) (k : String) (v : α) :
    List (String × α) :=
  if containsKey l k then
    l.map (fun p => if p.1 = k then (k, v) else p)
  else
    l ++ [(k, v)]

/-- Python `del d[k]`. -/
def delKey {α : Type} (l : List (String × α)) (k : String) :
    List (String × α) :=
  l.filter (fun p => p.1 ≠ k)

/-- The key list of a dict, in insertion order. -/
def keys {α : Type} (l : List (String × α)) : List String :=
  l.map Prod.fst

/-- A Python dict has distinct keys. -/
abbrev NodupKeys {α : Type} (l : List (String × α)) : Prop :=
  (keys l).Nodup

/-- One entry of the GET_PEERS reply list (`peer_id`, `ip`, `port`). -/
structure PeerEntry where
  peer_id : String
  ip : String
  port : Int
deriving DecidableEq, Repr

/-- The tracker's JSON reply dict.  Absent keys are `none`. -/
structure TrackerResponse where
  status : String
  message : Option String := none
  peer_count : Option Nat := none
  peers : Option (List PeerEntry) := none
deriving DecidableEq, Repr

/-- Core of `PeerTracker._handle_register` after argument parsing:
`self.peers[peer_id] = dict(ip, port, last_seen = time.time())`, then reply
success with `peer_count = len(self.peers)` (computed after the write). -/
def registerPeer (reg : Registry) (pid ip : String) (port now : Int) :
    Registry × TrackerResponse :=
  let reg' := dictSet reg pid { ip := ip, port := port, last_seen := now }
  (reg', { status := "success", message := some "Peer registered successfully",
           peer_count := some reg'.length })

/-- Core of `PeerTracker._handle_unregister` after argument parsing:
delete when present, otherwise reply the NotFound-shaped error. -/
def unregisterPeer (reg : Registry) (pid : String) :
    Registry × TrackerResponse :=
  if containsKey reg pid then
    (delKey reg pid,
     { status := "success", message := some "Peer unregistered successfully" })
  else
    (reg, { status := "error", message := some "Peer not found" })

/-- Core of `PeerTracker._handle_heartbeat` after argument parsing:
`self.peers[peer_id]['last_seen'] = time.time()` when present, otherwise
reply the NotFound-shaped error. -/
def heartbeatPeer (reg : Registry) (pid : String) (now : Int) :
    Registry × TrackerResponse :=
  if containsKey reg pid then
    (reg.map (fun p => if p.1 = pid then (p.1, { p.2 with last_seen := now }) else p),
     { status := "success", message := some "Heartbeat received" })
  else
    (reg, { status := "error", message := some "Peer not found" })

/-- `PeerTracker._handle_get_peers`: build the peer list from the registry
and reply success; the registry is not touched. -/
def getPeersReply (reg : Registry) : Registry × TrackerResponse :=
  let peer_list := reg.map (fun p => PeerEntry.mk p.1 p.2.ip p.2.port)
  (reg, { status := "success", peers := some peer_list,
          peer_count := some peer_list.length })

/-- The peer-ids collected by one pass of `PeerTracker._cleanup_inactive_peers`:
those with `current_time - info['last_seen'] > self.peer_timeout`. -/
def inactiveIds (reg : Registry) (now timeout : Int) : List String :=
  (reg.filter (fun p => now - p.2.last_seen > timeout)).map Prod.fst

/-- One tick of the body of `PeerTracker._cleanup_inactive_peers`: collect
the inactive ids, then `del self.peers[peer_id]` for each of them. -/
def cleanupTick (reg : Registry) (now timeout : Int) : Registry :=
  (inactiveIds reg now timeout).foldl delKey reg

/-! ### Command parsing (`PeerTracker._handle_client` and the handlers) -/

/-- Whitespace for Python `str.split()` with no separator argument
(ASCII whitespace; the protocol is ASCII). -/
def isPySpace (c : Char) : Bool :=
  c = ' ' || c = '\t' || c = '\n' || c = '\x0b' || c = '\x0c' || c = '\r'

/-- Accumulator pass for `pySplit`: `acc` holds the current token in
reverse; whitespace flushes it, and an empty token is never emitted. -/
def splitWSAux : List Char → List Char → List (List Char)
  | [], acc => if acc = [] then [] else [acc.reverse]
  | c :: cs, acc =>
    if isPySpace c then
      if acc = [] then splitWSAux cs [] else acc.reverse :: splitWSAux cs []
    else splitWSAux cs (c :: acc)

/-- Python `data.strip().split()`: split on runs of whitespace, dropping
empty pieces (for `split()` with no separator argument, stripping first
changes nothing). -/
def pySplit (s : String) : List String :=
  (splitWSAux s.data []).map List.asString

/-- Python `str.upper()` on the ASCII protocol tokens. -/
def pyUpper (s : String) : String :=
  (s.data.map Char.toUpper).asString

/-- Digit run of a Python integer literal: ASCII digits with single
underscores allowed only between digits.  Accumulates the value. -/
def pyDigits : List Char → Nat → Bool → Option Nat
  | [], acc, sawDigit => if sawDigit then some acc else none
  | c :: cs, acc, sawDigit =>
    if c.isDigit then
      pyDigits cs (acc * 10 + (c.toNat - '0'.toNat)) true
    else if c = '_' then
      match cs with
      | [] => none
      | d :: _ => if sawDigit && d.isDigit then pyDigits cs acc true else none
    else none

/-- Python `int(s)` on a token produced by `split()` (so `s` holds no
whitespace): optional sign, then ASCII digits with optional single
internal underscores; anything else raises ValueError, i.e. `none`. -/
def pyInt (s : String) : Option Int :=
  match s.data with
  | '+' :: rest => (pyDigits rest 0 false).map (fun n => (n : Int))
  | '-' :: rest => (pyDigits rest 0 false).map (fun n => -(n : Int))
  | l => (pyDigits l 0 false).map (fun n => (n : Int))

/-- `PeerTracker._handle_register` on the split command `parts`.
`int(parts[3])` can raise ValueError, which propagates to
`_handle_client`; that raising path is the `Except.error` branch. -/
def handleRegister (reg : Registry) (parts : List String) (now : Int) :
    Except String (Registry × TrackerResponse) :=
  if parts.length < 4 then
    .ok (reg, { status := "error",
                message := some "Invalid format. Use: REGISTER <peer_id> <ip> <port>" })
  else
    match pyInt (parts.getD 3 "") with
    | none => .error ("invalid literal for int() with base 10: " ++ parts.getD 3 "")
    | some peer_port => .ok (registerPeer reg (parts.getD 1 "") (parts.getD 2 "") peer_port now)

/-- `PeerTracker._handle_unregister` on the split command `parts`. -/
def handleUnregister (reg : Registry) (parts : List String) :
    Registry × TrackerResponse :=
  if parts.length < 2 then
    (reg, { status := "error",
            message := some "Invalid format. Use: UNREGISTER <peer_id>" })
  else
    unregisterPeer reg (parts.getD 1 "")

/-- `PeerTracker._handle_heartbeat` on the split command `parts`. -/
def handleHeartbeat (reg : Registry) (parts : List String) (now : Int) :
    Registry × TrackerResponse :=
  if parts.length < 2 then
    (reg, { status := "error",
            message := some "Invalid format. Use: HEARTBEAT <peer_id>" })
  else
    heartbeatPeer reg (parts.getD 1 "") now

/-- The dispatch on the upper-cased first token of a non-empty command,
from `PeerTracker._handle_client`.  An exception escaping a handler (the
ValueError of `int`) is caught at the connection boundary and answered
with a generic error object carrying `str(e)`. -/
def dispatch (reg : Registry) (cmd : String) (rest : List String)
    (now : Int) : Registry × Option TrackerResponse :=
  if pyUpper cmd = "REGISTER" then
    match handleRegister reg (cmd :: rest) now with
    | .ok (r, resp) => (r, some resp)
    | .error e => (reg, some { status := "error", message := some e })
  else if pyUpper cmd = "GET_PEERS" then
    ((getPeersReply reg).1, some (getPeersReply reg).2)
  else if pyUpper cmd = "UNREGISTER" then
    ((handleUnregister reg (cmd :: rest)).1,
     some (handleUnregister reg (cmd :: rest)).2)
  else if pyUpper cmd = "HEARTBEAT" then
    ((handleHeartbeat reg (cmd :: rest) now).1,
     some (handleHeartbeat reg (cmd :: rest) now).2)
  else
    (reg, some { status := "error", message := some "Unknown command" })

/-- `PeerTracker._handle_client` on one received string `data`: when `data`
is empty the handler returns without replying (`none`); otherwise it
splits, dispatches on the upper-cased first token, and replies. -/
def handleClient (reg : Registry) (data : String) (now : Int) :
    Registry × Option TrackerResponse :=
  if data = "" then (reg, none)
  else
    match pySplit data with
    | [] => (reg, some { status := "error", message := some "Empty command" })
    | cmd :: rest => dispatch reg cmd rest now

/-- The malformed shapes of a split non-empty command: wrong arity for
REGISTER/UNREGISTER/HEARTBEAT, non-integer REGISTER port, or an unknown
command word. -/
def malformedParts (cmd : String) (rest : List String) : Bool :=
  if pyUpper cmd = "REGISTER" then
    decide ((cmd :: rest).length < 4) || (pyInt ((cmd :: rest).getD 3 "")).isNone
  else if pyUpper cmd = "GET_PEERS" then
    false
  else if pyUpper cmd = "UNREGISTER" then
    decide ((cmd :: rest).length < 2)
  else if pyUpper cmd = "HEARTBEAT" then
    decide ((cmd :: rest).length < 2)
  else
    true

/-- The malformed request shapes enumerated by the spec: empty line, wrong
arity for REGISTER/UNREGISTER/HEARTBEAT, non-integer REGISTER port, or an
unknown command word. -/
def malformedCommand (data : String) : Bool :=
  match pySplit data with
  | [] => true
  | cmd :: rest => malformedParts cmd rest

/-! ### Registry operations as a transition system (for the invariant) -/

/-- A registry-mutating tracker operation, with the inputs the handlers
take from the wire (the sweep's timeout is `self.peer_timeout`). -/
inductive TrackerOp where
  | register (pid ip : String) (port : Int)
  | heartbeat (pid : String)
  | unregister (pid : String)
  | sweep (timeout : Int)
deriving DecidableEq, Repr

/-- The registry after one operation executed at clock `now`. -/
def applyOp (reg : Registry) (op : TrackerOp) (now : Int) : Registry :=
  match op with
  | .register pid ip port => (registerPeer reg pid ip port now).1
  | .heartbeat pid => (heartbeatPeer reg pid now).1
  | .unregister pid => (unregisterPeer reg pid).1
  | .sweep timeout => cleanupTick reg now timeout

/-- Run a sequence of timestamped operations left to right. -/
def runOps (reg : Registry) : List (TrackerOp × Int) → Registry
  | [] => reg
  | (op, t) :: rest => runOps (applyOp reg op t) rest

/-- The clock after a sequence of timestamped operations: the time of the
last one, or `t0` when there is none. -/
def lastClock (t0 : Int) (ops : List (TrackerOp × Int)) : Int :=
  ops.foldl (fun _ p => p.2) t0

/-- Every stored `last_seen` is at most `t` (each was taken from
`time.time()` at some past instant, and the clock never runs backwards). -/
abbrev BoundedBy (reg : Registry) (t : Int) : Prop :=
  ∀ p ∈ reg, p.2.last_seen ≤ t

/-- The registry invariant at clock `t`: distinct keys (a Python dict) and
timestamps not in the future. -/
abbrev RegistryWF (reg : Registry) (t : Int) : Prop :=
  NodupKeys reg ∧ BoundedBy reg t

/-! ### Client side (`chat_client.py`) -/

/-- A client-side cache entry `self.peer_info[peer_id]` (`ip`, `port`). -/
structure PeerInfo where
  ip : String
  port : Int
deriving DecidableEq, Repr

/-- The client state touched by discovery and broadcast: the PeerInfo
cache `self.peer_info` and the key set of the outbound connection cache
`self.peer_connections` (socket identities are irrelevant to the claims,
so only which peer ids hold a cached connection is kept). -/
structure ChatState where
  peer_info : List (String × PeerInfo)
  peer_connections : List String
deriving DecidableEq, Repr

/-- The loop body of `ChatClient._update_peer_list` over the decoded
`peers` list of a GET_PEERS reply: every returned peer other than self is
written into `self.peer_info`; nothing is ever removed. -/
def updatePeerList (selfId : String) (cache : List (String × PeerInfo))
    (peers : List PeerEntry) : List (String × PeerInfo) :=
  peers.foldl
    (fun c p =>
      if p.peer_id ≠ selfId then dictSet c p.peer_id ⟨p.ip, p.port⟩ else c)
    cache

/-- The network environment for one broadcast: whether the dial to a peer
succeeds (`socket.connect`) and whether a send on its connection succeeds
(`sendall`).  Both failures raise in Python and are caught per peer. -/
structure NetEnv where
  connectOk : String → Bool
  sendOk : String → Bool

/-- `ChatClient._connect_to_peer`: `None` (here `false`) when the peer is
missing from `self.peer_info` or the dial raises; on success the socket is
cached in `self.peer_connections` and returned (`true`). -/
def connectToPeer (env : NetEnv) (st : ChatState) (pid : String) :
    ChatState × Bool :=
  if (lookupAssoc st.peer_info pid).isNone then (st, false)
  else if env.connectOk pid then
    (if st.peer_connections.contains pid then (st, true)
     else ({ st with peer_connections := st.peer_connections ++ [pid] }, true))
  else (st, false)

/-- One iteration of the `ChatClient.broadcast_message` loop for one
`peer_id`: use the cached connection or lazily connect; a failed connect
skips the peer (`continue`), a raising `sendall` is caught and skips the
count; a successful send increments `sent_count`. -/
def broadcastStep (env : NetEnv) (acc : ChatState × Nat) (pid : String) :
    ChatState × Nat :=
  if acc.1.peer_connections.contains pid then
    if env.sendOk pid then (acc.1, acc.2 + 1) else (acc.1, acc.2)
  else
    let res := connectToPeer env acc.1 pid
    if res.2 then
      if env.sendOk pid then (res.1, acc.2 + 1) else (res.1, acc.2)
    else (res.1, acc.2)

/-- `ChatClient.broadcast_message`: fold the per-peer step over
`list(self.peer_info.keys())` starting from `sent_count = 0`.  Every
exception inside the loop body is caught, so the function always returns
(it is total by construction — the Python never raises). -/
def broadcastMessage (env : NetEnv) (st : ChatState) : ChatState × Nat :=
  (keys st.peer_info).foldl (broadcastStep env) (st, 0)

/-- Whether one peer of the cache ends up counted by a broadcast in
environment `env` from state `st`: a cached connection (or a successful
lazy dial) followed by a successful send. -/
def broadcastSucceeds (env : NetEnv) (st : ChatState) (pid : String) : Bool :=
  (st.peer_connections.contains pid || env.connectOk pid) && env.sendOk pid

/-! ### Inbound P2P message processing (`ChatClient._process_peer_message`) -/

/-- A decoded JSON scalar, the field values `json.loads` can hand to
`_process_peer_message` in this protocol. -/
inductive JsonVal where
  | jstr (s : String)
  | jnum (n : Int)
  | jbool (b : Bool)
  | jnull
deriving DecidableEq, Repr

/-- One entry of `self.messages` (`type`, `from`, `content`, `time`);
`from`/`content` are whatever `msg_data.get` returned (`none` = Python
`None` for a missing key). -/
structure Message where
  mtype : String
  mfrom : Option JsonVal
  content : Option JsonVal
  time : Int
deriving DecidableEq, Repr

/-- `ChatClient._process_peer_message` on one received payload.
`decoded` is the outcome of `json.loads` plus the `.get` calls: `none`
when the payload is not valid JSON (or not a JSON object, so that `.get`
raises) — that exception is caught and nothing happens.  Otherwise the
`type` field selects a history append; any other type falls through with
no state change. -/
def processPeerMessage (decoded : Option (List (String × JsonVal)))
    (msgs : List Message) (now : Int) : List Message :=
  match decoded with
  | none => msgs
  | some d =>
    let msg_type := lookupAssoc d "type"
    let from_peer := lookupAssoc d "from"
    let content := lookupAssoc d "content"
    if msg_type = some (.jstr "direct") then
      msgs ++ [{ mtype := "direct", mfrom := from_peer, content := content, time := now }]
    else if msg_type = some (.jstr "broadcast") then
      msgs ++ [{ mtype := "broadcast", mfrom := from_peer, content := content, time := now }]
    else msgs

/-! ### Concrete fixtures used by the evaluation corollaries -/

/-- A three-peer client cache with no cached connections. -/
def witChatState : ChatState :=
  { peer_info := [("alice", PeerInfo.mk "10.0.0.1" 6001),
                  ("bob", PeerInfo.mk "10.0.0.2" 6002),
                  ("carol", PeerInfo.mk "10.0.0.3" 6003)],
    peer_connections := [] }

/-- A network where only the dial to bob fails and every send succeeds. -/
def witNetEnv : NetEnv :=
  { connectOk := fun p => decide (p ≠ "bob"), sendOk := fun _ => true }

/-- A concrete operation sequence with non-decreasing clocks. -/
def witOps : List (TrackerOp × Int) :=
  [(TrackerOp.register "alice" "10.0.0.1" 6001, 10),
   (TrackerOp.register "bob" "10.0.0.2" 6002, 20),
   (TrackerOp.heartbeat "alice", 30),
   (TrackerOp.register "alice" "10.0.0.1" 6001, 50),
   (TrackerOp.unregister "bob", 60),
   (TrackerOp.sweep 300, 400)]

/-! ### Lemmas about the dict primitives -/

theorem keys_nil {α : Type} : keys ([] : List (String × α)) = [] := rfl

theorem keys_cons {α : Type} (p : String × α) (l : List (String × α)) :
    keys (p :: l) = p.1 :: keys l := rfl

theorem lookupAssoc_eq_none {α : Type} (l : List (String × α)) (k : String) :
    lookupAssoc l k = none ↔ k ∉ keys l := by
  induction l with
  | nil => simp [lookupAssoc, keys]
  | cons p rest ih =>
    by_cases h : p.1 = k
    · simp [lookupAssoc, keys_cons, h]
    · simp only [lookupAssoc, h, if_false, ih, keys_cons, List.mem_cons, not_or]
      constructor
      · intro hnr
        exact ⟨fun he => h he.symm, hnr⟩
      · intro hnr
        exact hnr.2

theorem containsKey_iff_mem {α : Type} (l : List (String × α)) (k : String) :
    containsKey l k = true ↔ k ∈ keys l := by
  simp [containsKey, keys]

theorem lookupAssoc_isSome_of_mem {α : Type} {l : List (String × α)} {k : String}
    (h : k ∈ keys l) : (lookupAssoc l k).isSome := by
  induction l with
  | nil => simp [keys] at h
  | cons p rest ih =>
    rw [keys_cons, List.mem_cons] at h
    by_cases hp : p.1 = k
    · simp [lookupAssoc, hp]
    · rcases h with h | h
      · exact absurd h.symm hp
      · simpa [lookupAssoc, hp] using ih h

theorem mem_of_lookupAssoc {α : Type} {l : List (String × α)} {k : String} {v : α}
    (h : lookupAssoc l k = some v) : (k, v) ∈ l := by
  induction l with
  | nil => simp [lookupAssoc] at h
  | cons p rest ih =>
    simp only [lookupAssoc] at h
    by_cases hp : p.1 = k
    · rw [if_pos hp] at h
      have hv : p.2 = v := Option.some.inj h
      have hpv : (k, v) = p := by
        cases p
        simp only [Prod.mk.injEq]
        exact ⟨hp.symm, hv.symm⟩
      rw [hpv]
      exact List.mem_cons_self _ _
    · rw [if_neg hp] at h
      exact List.mem_cons_of_mem _ (ih h)

theorem lookupAssoc_of_mem {α : Type} {l : List (String × α)} {k : String} {v : α}
    (hnd : NodupKeys l) (hm : (k, v) ∈ l) : lookupAssoc l k = some v := by
  induction l with
  | nil => simp at hm
  | cons p rest ih =>
    have hnd2 : (p.1 :: keys rest).Nodup := by
      have h0 : NodupKeys (p :: rest) := hnd
      unfold NodupKeys at h0
      rwa [keys_cons] at h0
    have hcons := List.nodup_cons.mp hnd2
    rw [List.mem_cons] at hm
    rcases hm with hm | hm
    · rw [← hm]
      simp [lookupAssoc]
    · have hk : k ∈ keys rest := by
        have := List.mem_map_of_mem Prod.fst hm
        simpa [keys] using this
      have hp : p.1 ≠ k := fun he => hcons.1 (he ▸ hk)
      simp [lookupAssoc, hp, ih hcons.2 hm]

theorem lookupAssoc_setAt_ne {α : Type} (l : List (String × α)) (k q : String)
    (v : α) (hqk : q ≠ k) :
    lookupAssoc (l.map fun p => if p.1 = k then (k, v) else p) q =
      lookupAssoc l q := by
  induction l with
  | nil => rfl
  | cons p rest ih =>
    by_cases hpk : p.1 = k
    · have hpq : p.1 ≠ q := fun he => hqk (he.symm.trans hpk)
      simp [lookupAssoc, hpk, hpq, Ne.symm hqk, ih]
    · by_cases hpq : p.1 = q
      · simp [lookupAssoc, hpk, hpq, hqk]
      · simp [lookupAssoc, hpk, hpq, ih]

theorem lookupAssoc_setAt_eq {α : Type} (l : List (String × α)) (k : String)
    (v : α) (hc : k ∈ keys l) :
    lookupAssoc (l.map fun p => if p.1 = k then (k, v) else p) k = some v := by
  induction l with
  | nil => simp [keys] at hc
  | cons p rest ih =>
    by_cases hpk : p.1 = k
    · simp [lookupAssoc, hpk]
    · rw [keys_cons, List.mem_cons] at hc
      rcases hc with hc | hc
      · exact absurd hc.symm hpk
      · simp [lookupAssoc, hpk, ih hc]

theorem lookupAssoc_append_single {α : Type} (l : List (String × α))
    (k q : String) (v : α) (hkl : lookupAssoc l k = none) :
    lookupAssoc (l ++ [(k, v)]) q = if q = k then some v else lookupAssoc l q := by
  induction l with
  | nil =>
    by_cases hqk : q = k
    · simp [lookupAssoc, hqk]
    · have hkq : k ≠ q := fun he => hqk he.symm
      simp [lookupAssoc, hqk, hkq]
  | cons p rest ih =>
    simp only [lookupAssoc] at hkl
    by_cases hpk : p.1 = k
    · rw [if_pos hpk] at hkl
      exact absurd hkl (by simp)
    · rw [if_neg hpk] at hkl
      by_cases hpq : p.1 = q
      · have hqk : q ≠ k := fun he => hpk (hpq.trans he)
        simp [lookupAssoc, hpq, hqk]
      · simp [lookupAssoc, hpq, ih hkl]

theorem lookupAssoc_dictSet {α : Type} (l : List (String × α)) (k q : String) (v : α) :
    lookupAssoc (dictSet l k v) q = if q = k then some v else lookupAssoc l q := by
  unfold dictSet
  by_cases hc : containsKey l k
  · rw [if_pos hc]
    by_cases hqk : q = k
    · rw [hqk, if_pos rfl]
      exact lookupAssoc_setAt_eq l k v ((containsKey_iff_mem l k).mp hc)
    · rw [if_neg hqk]
      exact lookupAssoc_setAt_ne l k q v hqk
  · rw [if_neg hc]
    have hkl : lookupAssoc l k = none := by
      rw [lookupAssoc_eq_none]
      exact fun h => hc ((containsKey_iff_mem l k).mpr h)
    exact lookupAssoc_append_single l k q v hkl

theorem delKey_cons {α : Type} (p : String × α) (rest : List (String × α))
    (k : String) :
    delKey (p :: rest) k =
      if p.1 = k then delKey rest k else p :: delKey rest k := by
  by_cases hpk : p.1 = k <;> simp [delKey, List.filter_cons, hpk]

theorem lookupAssoc_delKey {α : Type} (l : List (String × α)) (k q : String) :
    lookupAssoc (delKey l k) q = if q = k then none else lookupAssoc l q := by
  induction l with
  | nil => simp [delKey, lookupAssoc]
  | cons p rest ih =>
    rw [delKey_cons]
    by_cases hqk : q = k
    · rw [if_pos hqk]
      rw [if_pos hqk] at ih
      by_cases hpk : p.1 = k
      · rw [if_pos hpk]
        exact ih
      · have hpq : p.1 ≠ q := fun he => hpk (he.trans hqk)
        rw [if_neg hpk]
        simp [lookupAssoc, hpq, ih]
    · rw [if_neg hqk]
      rw [if_neg hqk] at ih
      by_cases hpk : p.1 = k
      · have hpq : p.1 ≠ q := fun he => hqk (he.symm.trans hpk)
        rw [if_pos hpk, ih]
        simp [lookupAssoc, hpq]
      · rw [if_neg hpk]
        by_cases hpq : p.1 = q
        · simp [lookupAssoc, hpq]
        · simp [lookupAssoc, hpq, ih]

theorem lookupAssoc_foldl_delKey {α : Type} (ids : List String)
    (l : List (String × α)) (q : String) :
    lookupAssoc (ids.foldl delKey l) q =
      if q ∈ ids then none else lookupAssoc l q := by
  induction ids generalizing l with
  | nil => simp
  | cons i rest ih =>
    simp only [List.foldl_cons, ih, lookupAssoc_delKey]
    by_cases h1 : q ∈ rest
    · simp [h1]
    · by_cases h2 : q = i <;> simp [h1, h2]

theorem lookupAssoc_mapAt {α : Type} (l : List (String × α)) (k q : String)
    (f : α → α) :
    lookupAssoc (l.map fun p => if p.1 = k then (p.1, f p.2) else p) q =
      if q = k then (lookupAssoc l k).map f else lookupAssoc l q := by
  induction l with
  | nil => simp [lookupAssoc]
  | cons p rest ih =>
    by_cases hpk : p.1 = k
    · by_cases hqk : q = k
      · simp [lookupAssoc, hpk, hqk]
      · simp [lookupAssoc, hpk, hqk, Ne.symm hqk, ih]
    · by_cases hpq : p.1 = q
      · have hqk : q ≠ k := fun he => hpk (hpq.trans he)
        simp [lookupAssoc, hpk, hpq, hqk]
      · simp [lookupAssoc, hpk, hpq, ih]

theorem keys_mapAt {α : Type} (l : List (String × α)) (k : String) (f : α → α) :
    keys (l.map fun p => if p.1 = k then (p.1, f p.2) else p) = keys l := by
  induction l with
  | nil => rfl
  | cons p rest ih =>
    by_cases hpk : p.1 = k
    · simp only [List.map_cons, if_pos hpk, keys_cons, ih]
    · simp only [List.map_cons, if_neg hpk, keys_cons, ih]

theorem keys_setAt {α : Type} (l : List (String × α)) (k : String) (v : α) :
    keys (l.map fun p => if p.1 = k then (k, v) else p) = keys l := by
  induction l with
  | nil => rfl
  | cons p rest ih =>
    by_cases hpk : p.1 = k
    · simp only [List.map_cons, if_pos hpk, keys_cons, ih]
      rw [hpk]
    · simp only [List.map_cons, if_neg hpk, keys_cons, ih]

theorem keys_dictSet_of_contains {α : Type} (l : List (String × α))
    (k : String) (v : α) (h : containsKey l k = true) :
    keys (dictSet l k v) = keys l := by
  unfold dictSet
  rw [if_pos h]
  exact keys_setAt l k v

theorem keys_dictSet_of_not_contains {α : Type} (l : List (String × α))
    (k : String) (v : α) (h : ¬ containsKey l k = true) :
    keys (dictSet l k v) = keys l ++ [k] := by
  unfold dictSet
  simp only [h, if_false]
  simp [keys]

theorem length_dictSet_of_contains {α : Type} (l : List (String × α))
    (k : String) (v : α) (h : containsKey l k = true) :
    (dictSet l k v).length = l.length := by
  unfold dictSet
  simp [h]

theorem nodup_keys_dictSet {α : Type} (l : List (String × α)) (k : String)
    (v : α) (h : NodupKeys l) : NodupKeys (dictSet l k v) := by
  by_cases hc : containsKey l k
  · unfold NodupKeys
    rw [keys_dictSet_of_contains l k v hc]
    exact h
  · unfold NodupKeys
    rw [keys_dictSet_of_not_contains l k v hc]
    have hk : k ∉ keys l := fun hm => hc ((containsKey_iff_mem l k).mpr hm)
    simpa [List.nodup_append] using ⟨h, hk⟩

theorem keys_filter_sublist {α : Type} (l : List (String × α))
    (p : String × α → Bool) : (keys (l.filter p)).Sublist (keys l) :=
  List.Sublist.map Prod.fst (List.filter_sublist l)

theorem nodup_keys_delKey {α : Type} (l : List (String × α)) (k : String)
    (h : NodupKeys l) : NodupKeys (delKey l k) :=
  List.Nodup.sublist (keys_filter_sublist l _) h

theorem nodup_keys_foldl_delKey {α : Type} (ids : List String)
    (l : List (String × α)) (h : NodupKeys l) :
    NodupKeys (ids.foldl delKey l) := by
  induction ids generalizing l with
  | nil => exact h
  | cons i rest ih => exact ih (delKey l i) (nodup_keys_delKey l i h)

theorem nodup_keys_mapAt {α : Type} (l : List (String × α)) (k : String)
    (f : α → α) (h : NodupKeys l) :
    NodupKeys (l.map fun p => if p.1 = k then (p.1, f p.2) else p) := by
  unfold NodupKeys
  rw [keys_mapAt]
  exact h

theorem mem_keys_of_lookupAssoc {α : Type} {l : List (String × α)} {k : String}
    {v : α} (h : lookupAssoc l k = some v) : k ∈ keys l := by
  have := List.mem_map_of_mem Prod.fst (mem_of_lookupAssoc h)
  simpa [keys] using this

theorem containsKey_of_lookupAssoc {α : Type} {l : List (String × α)}
    {k : String} {v : α} (h : lookupAssoc l k = some v) :
    containsKey l k = true :=
  (containsKey_iff_mem l k).mpr (mem_keys_of_lookupAssoc h)

theorem containsKey_eq_false_of_lookup_none {α : Type} {l : List (String × α)}
    {k : String} (h : lookupAssoc l k = none) : containsKey l k = false := by
  rw [lookupAssoc_eq_none] at h
  rcases hb : containsKey l k with _ | _
  · rfl
  · exact absurd ((containsKey_iff_mem l k).mp hb) h

theorem mem_keys_dictSet {α : Type} (l : List (String × α)) (k k' : String)
    (v : α) (h : k' ∈ keys l) : k' ∈ keys (dictSet l k v) := by
  by_cases hc : containsKey l k
  · rw [keys_dictSet_of_contains l k v hc]
    exact h
  · rw [keys_dictSet_of_not_contains l k v hc]
    exact List.mem_append_left _ h

theorem length_dictSet_ge {α : Type} (l : List (String × α)) (k : String)
    (v : α) : l.length ≤ (dictSet l k v).length := by
  by_cases hc : containsKey l k
  · rw [length_dictSet_of_contains l k v hc]
  · unfold dictSet
    rw [if_neg hc]
    simp

theorem updatePeerList_cons (selfId : String) (cache : List (String × PeerInfo))
    (a : PeerEntry) (rest : List PeerEntry) :
    updatePeerList selfId cache (a :: rest) =
      updatePeerList selfId
        (if a.peer_id ≠ selfId then dictSet cache a.peer_id ⟨a.ip, a.port⟩
         else cache) rest := rfl

theorem updatePeerList_lookup_not_mem (selfId : String)
    (cache : List (String × PeerInfo)) (peers : List PeerEntry) (q : String)
    (hq : q ∉ peers.map PeerEntry.peer_id) :
    lookupAssoc (updatePeerList selfId cache peers) q = lookupAssoc cache q := by
  induction peers generalizing cache with
  | nil => rfl
  | cons a rest ih =>
    rw [List.map_cons, List.mem_cons, not_or] at hq
    rw [updatePeerList_cons, ih _ hq.2]
    by_cases ha : a.peer_id ≠ selfId
    · rw [if_pos ha, lookupAssoc_dictSet, if_neg hq.1]
    · rw [if_neg ha]

theorem updatePeerList_lookup_self (selfId : String)
    (cache : List (String × PeerInfo)) (peers : List PeerEntry) :
    lookupAssoc (updatePeerList selfId cache peers) selfId =
      lookupAssoc cache selfId := by
  induction peers generalizing cache with
  | nil => rfl
  | cons a rest ih =>
    rw [updatePeerList_cons, ih]
    by_cases ha : a.peer_id ≠ selfId
    · rw [if_pos ha, lookupAssoc_dictSet, if_neg (fun he => ha he.symm)]
    · rw [if_neg ha]

theorem updatePeerList_lookup_of_mem (selfId : String)
    (cache : List (String × PeerInfo)) (peers : List PeerEntry)
    (hnodup : (peers.map PeerEntry.peer_id).Nodup) (p : PeerEntry)
    (hp : p ∈ peers) (hne : p.peer_id ≠ selfId) :
    lookupAssoc (updatePeerList selfId cache peers) p.peer_id =
      some (PeerInfo.mk p.ip p.port) := by
  induction peers generalizing cache with
  | nil => simp at hp
  | cons a rest ih =>
    rw [List.map_cons, List.nodup_cons] at hnodup
    rw [List.mem_cons] at hp
    rw [updatePeerList_cons]
    rcases hp with hp | hp
    · rw [hp]
      rw [hp] at hne
      rw [updatePeerList_lookup_not_mem _ _ _ _ hnodup.1]
      rw [if_pos hne, lookupAssoc_dictSet, if_pos rfl]
    · exact ih _ hnodup.2 hp

/-! ### Lemmas for the broadcast loop -/

theorem bool_eq_false {b : Bool} (h : ¬ b = true) : b = false := by
  rcases b with _ | _
  · rfl
  · exact absurd rfl h

theorem ne_true_of_eq_false {b : Bool} (h : b = false) : ¬ b = true := by
  rw [h]
  simp

theorem contains_append_ne (l : List String) (x q : String) (h : q ≠ x) :
    (l ++ [x]).contains q = l.contains q := by
  rcases hb : l.contains q with _ | _
  · simp at hb
    simp [hb, h]
  · simp at hb
    simp [hb]

theorem contains_append_self (l : List String) (x : String) :
    (l ++ [x]).contains x = true := by simp

theorem contains_append_mono (l : List String) (x q : String)
    (h : l.contains q = true) : (l ++ [x]).contains q = true := by
  simp at h
  simp [h]

theorem length_filter_add_length_filter_not {α : Type} (l : List α)
    (p : α → Bool) :
    (l.filter p).length + (l.filter (fun a => !(p a))).length = l.length := by
  induction l with
  | nil => rfl
  | cons a rest ih =>
    rcases hpa : p a with _ | _ <;> simp [List.filter_cons, hpa] <;> omega

theorem connectToPeer_peer_info (env : NetEnv) (st : ChatState) (pid : String) :
    (connectToPeer env st pid).1.peer_info = st.peer_info := by
  unfold connectToPeer
  by_cases h1 : (lookupAssoc st.peer_info pid).isNone = true
  · rw [if_pos h1]
  · rw [if_neg h1]
    by_cases h2 : env.connectOk pid = true
    · rw [if_pos h2]
      by_cases h3 : st.peer_connections.contains pid = true
      · rw [if_pos h3]
      · rw [if_neg h3]
    · rw [if_neg h2]

theorem connectToPeer_ok (env : NetEnv) (st : ChatState) (pid : String)
    (hin : pid ∈ keys st.peer_info)
    (hnc : st.peer_connections.contains pid = false)
    (hok : env.connectOk pid = true) :
    connectToPeer env st pid =
      ({ st with peer_connections := st.peer_connections ++ [pid] }, true) := by
  have hsome := lookupAssoc_isSome_of_mem hin
  have h1 : (lookupAssoc st.peer_info pid).isNone = false := by
    rcases hl : lookupAssoc st.peer_info pid with _ | v
    · rw [hl] at hsome
      simp at hsome
    · rfl
  unfold connectToPeer
  rw [if_neg (by simp [h1]), if_pos hok, if_neg (ne_true_of_eq_false hnc)]

theorem connectToPeer_notOk (env : NetEnv) (st : ChatState) (pid : String)
    (hok : env.connectOk pid = false) :
    connectToPeer env st pid = (st, false) := by
  unfold connectToPeer
  by_cases h1 : (lookupAssoc st.peer_info pid).isNone = true
  · rw [if_pos h1]
  · rw [if_neg h1, if_neg (by simp [hok])]

theorem connectToPeer_noinfo (env : NetEnv) (st : ChatState) (pid : String)
    (h : lookupAssoc st.peer_info pid = none) :
    connectToPeer env st pid = (st, false) := by
  unfold connectToPeer
  rw [if_pos (by simp [h])]

theorem broadcastStep_cached (env : NetEnv) (st : ChatState) (count : Nat)
    (pid : String) (hc : st.peer_connections.contains pid = true) :
    broadcastStep env (st, count) pid =
      (st, if env.sendOk pid then count + 1 else count) := by
  simp only [broadcastStep]
  rw [if_pos hc]
  by_cases hs : env.sendOk pid = true
  · rw [if_pos hs, if_pos hs]
  · rw [if_neg hs, if_neg hs]

theorem broadcastStep_uncached (env : NetEnv) (st : ChatState) (count : Nat)
    (pid : String) (hc : st.peer_connections.contains pid = false)
    (hin : pid ∈ keys st.peer_info) :
    broadcastStep env (st, count) pid =
      (if env.connectOk pid
         then { st with peer_connections := st.peer_connections ++ [pid] }
         else st,
       if env.connectOk pid && env.sendOk pid then count + 1 else count) := by
  simp only [broadcastStep]
  rw [if_neg (ne_true_of_eq_false hc)]
  by_cases hok : env.connectOk pid = true
  · rw [connectToPeer_ok env st pid hin hc hok]
    by_cases hs : env.sendOk pid = true
    · simp [hok, hs]
    · simp [hok, bool_eq_false hs]
  · rw [connectToPeer_notOk env st pid (bool_eq_false hok)]
    simp [bool_eq_false hok]

theorem broadcastStep_connections_mono (env : NetEnv) (acc : ChatState × Nat)
    (pid q : String) (h : acc.1.peer_connections.contains q = true) :
    (broadcastStep env acc pid).1.peer_connections.contains q = true := by
  rcases acc with ⟨st, count⟩
  by_cases hc : st.peer_connections.contains pid = true
  · rw [broadcastStep_cached env st count pid hc]
    exact h
  · by_cases hin : pid ∈ keys st.peer_info
    · rw [broadcastStep_uncached env st count pid (bool_eq_false hc) hin]
      by_cases hok : env.connectOk pid = true
      · rw [if_pos hok]
        exact contains_append_mono _ _ _ h
      · rw [if_neg hok]
        exact h
    · have hnone : lookupAssoc st.peer_info pid = none := by
        rw [lookupAssoc_eq_none]
        exact hin
      simp only [broadcastStep]
      rw [if_neg hc,
        connectToPeer_noinfo env st pid hnone]
      simpa using h

theorem broadcast_fold_connections_mono (env : NetEnv) (ks : List String) :
    ∀ (acc : ChatState × Nat) (q : String),
      acc.1.peer_connections.contains q = true →
      ((ks.foldl (broadcastStep env) acc).1.peer_connections.contains q = true) := by
  induction ks with
  | nil =>
    intro acc q h
    exact h
  | cons pid ks' ih =>
    intro acc q h
    rw [List.foldl_cons]
    exact ih _ q (broadcastStep_connections_mono env acc pid q h)

theorem broadcast_fold_count (env : NetEnv) (st0 : ChatState)
    (ks : List String) :
    ∀ (st : ChatState) (count : Nat),
      ks.Nodup →
      st.peer_info = st0.peer_info →
      (∀ p ∈ ks, st.peer_connections.contains p =
        st0.peer_connections.contains p) →
      (∀ p ∈ ks, p ∈ keys st0.peer_info) →
      (ks.foldl (broadcastStep env) (st, count)).2 =
        count + (ks.filter (broadcastSucceeds env st0)).length := by
  induction ks with
  | nil =>
    intro st count _ _ _ _
    simp
  | cons pid ks' ih =>
    intro st count hnd hpi hagree hin
    have hnd' := List.nodup_cons.mp hnd
    have hpid0 : pid ∈ keys st0.peer_info := hin pid (List.mem_cons_self _ _)
    have hpidst : pid ∈ keys st.peer_info := by
      rw [hpi]
      exact hpid0
    have hagree_pid : st.peer_connections.contains pid =
        st0.peer_connections.contains pid := hagree pid (List.mem_cons_self _ _)
    have hagree' : ∀ p ∈ ks', st.peer_connections.contains p =
        st0.peer_connections.contains p :=
      fun p hp => hagree p (List.mem_cons_of_mem _ hp)
    have hin' : ∀ p ∈ ks', p ∈ keys st0.peer_info :=
      fun p hp => hin p (List.mem_cons_of_mem _ hp)
    rw [List.foldl_cons, List.filter_cons]
    by_cases hc0 : st0.peer_connections.contains pid = true
    · have hc : st.peer_connections.contains pid = true := by
        rw [hagree_pid]
        exact hc0
      rw [broadcastStep_cached env st count pid hc]
      have hsucc : broadcastSucceeds env st0 pid = env.sendOk pid := by
        unfold broadcastSucceeds
        rw [hc0]
        simp
      rw [ih st _ hnd'.2 hpi hagree' hin', hsucc]
      by_cases hs : env.sendOk pid = true
      · rw [if_pos hs, if_pos hs, List.length_cons]
        omega
      · rw [if_neg hs, if_neg hs]
    · have hc : st.peer_connections.contains pid = false := by
        rw [hagree_pid]
        exact bool_eq_false hc0
      rw [broadcastStep_uncached env st count pid hc hpidst]
      have hsucc : broadcastSucceeds env st0 pid =
          (env.connectOk pid && env.sendOk pid) := by
        unfold broadcastSucceeds
        rw [bool_eq_false hc0]
        simp
      by_cases hok : env.connectOk pid = true
      · rw [if_pos hok]
        have hpi2 : ({ st with peer_connections :=
            st.peer_connections ++ [pid] } : ChatState).peer_info =
            st0.peer_info := hpi
        have hagree2 : ∀ p ∈ ks', ({ st with peer_connections :=
            st.peer_connections ++ [pid] } : ChatState).peer_connections.contains p =
            st0.peer_connections.contains p := by
          intro p hp
          have hpne : p ≠ pid := fun he => hnd'.1 (he ▸ hp)
          show (st.peer_connections ++ [pid]).contains p = _
          rw [contains_append_ne _ _ _ hpne]
          exact hagree' p hp
        rw [ih _ _ hnd'.2 hpi2 hagree2 hin', hsucc]
        by_cases hs : env.sendOk pid = true
        · have hcond : (env.connectOk pid && env.sendOk pid) = true := by
            simp [hok, hs]
          rw [if_pos hcond, if_pos hcond, List.length_cons]
          omega
        · have hcond : (env.connectOk pid && env.sendOk pid) = false := by
            rw [bool_eq_false hs]
            simp
          rw [if_neg (ne_true_of_eq_false hcond),
            if_neg (ne_true_of_eq_false hcond)]
      · rw [if_neg hok]
        rw [ih st _ hnd'.2 hpi hagree' hin', hsucc]
        simp [bool_eq_false hok]

theorem broadcast_fold_connects (env : NetEnv) (st0 : ChatState)
    (ks : List String) :
    ∀ (st : ChatState) (count : Nat),
      ks.Nodup →
      st.peer_info = st0.peer_info →
      (∀ p ∈ ks, st.peer_connections.contains p =
        st0.peer_connections.contains p) →
      (∀ p ∈ ks, p ∈ keys st0.peer_info) →
      ∀ p ∈ ks, st0.peer_connections.contains p = false →
        env.connectOk p = true →
        (ks.foldl (broadcastStep env) (st, count)).1.peer_connections.contains p
          = true := by
  induction ks with
  | nil =>
    intro st count _ _ _ _ p hp
    simp at hp
  | cons pid ks' ih =>
    intro st count hnd hpi hagree hin p hp hc0p hokp
    have hnd' := List.nodup_cons.mp hnd
    have hagree' : ∀ q ∈ ks', st.peer_connections.contains q =
        st0.peer_connections.contains q :=
      fun q hq => hagree q (List.mem_cons_of_mem _ hq)
    have hin' : ∀ q ∈ ks', q ∈ keys st0.peer_info :=
      fun q hq => hin q (List.mem_cons_of_mem _ hq)
    have hagree_pid : st.peer_connections.contains pid =
        st0.peer_connections.contains pid := hagree pid (List.mem_cons_self _ _)
    rw [List.foldl_cons]
    rw [List.mem_cons] at hp
    by_cases hcpid : st0.peer_connections.contains pid = true
    · have hc : st.peer_connections.contains pid = true := by
        rw [hagree_pid]
        exact hcpid
      rw [broadcastStep_cached env st count pid hc]
      rcases hp with rfl | hp
      · exact absurd hcpid (ne_true_of_eq_false hc0p)
      · exact ih st _ hnd'.2 hpi hagree' hin' p hp hc0p hokp
    · have hc : st.peer_connections.contains pid = false := by
        rw [hagree_pid]
        exact bool_eq_false hcpid
      have hpidst : pid ∈ keys st.peer_info := by
        rw [hpi]
        exact hin pid (List.mem_cons_self _ _)
      rw [broadcastStep_uncached env st count pid hc hpidst]
      rcases hp with rfl | hp
      · rw [if_pos hokp]
        apply broadcast_fold_connections_mono
        show (st.peer_connections ++ [p]).contains p = true
        exact contains_append_self _ _
      · by_cases hok : env.connectOk pid = true
        · rw [if_pos hok]
          have hpi2 : ({ st with peer_connections :=
              st.peer_connections ++ [pid] } : ChatState).peer_info =
              st0.peer_info := hpi
          have hagree2 : ∀ q ∈ ks', ({ st with peer_connections :=
              st.peer_connections ++ [pid] } : ChatState).peer_connections.contains q =
              st0.peer_connections.contains q := by
            intro q hq
            have hqne : q ≠ pid := fun he => hnd'.1 (he ▸ hq)
            show (st.peer_connections ++ [pid]).contains q = _
            rw [contains_append_ne _ _ _ hqne]
            exact hagree' q hq
          exact ih _ _ hnd'.2 hpi2 hagree2 hin' p hp hc0p hokp
        · rw [if_neg hok]
          exact ih st _ hnd'.2 hpi hagree' hin' p hp hc0p hokp

/-! ### Lemmas for the registry invariant -/

theorem boundedBy_mono {reg : Registry} {t t' : Int} (h : BoundedBy reg t)
    (hle : t ≤ t') : BoundedBy reg t' :=
  fun p hp => le_trans (h p hp) hle

theorem boundedBy_dictSet {reg : Registry} {t : Int} {pid : String}
    {rec : PeerRecord} (h : BoundedBy reg t) (hr : rec.last_seen ≤ t) :
    BoundedBy (dictSet reg pid rec) t := by
  intro p hp
  unfold dictSet at hp
  by_cases hc : containsKey reg pid = true
  · rw [if_pos hc] at hp
    rw [List.mem_map] at hp
    obtain ⟨q, hq, he⟩ := hp
    by_cases hqp : q.1 = pid
    · rw [if_pos hqp] at he
      rw [← he]
      exact hr
    · rw [if_neg hqp] at he
      rw [← he]
      exact h q hq
  · rw [if_neg hc] at hp
    rw [List.mem_append] at hp
    rcases hp with hp | hp
    · exact h p hp
    · rw [List.mem_singleton] at hp
      rw [hp]
      exact hr

theorem boundedBy_heartbeat_map {reg : Registry} {now : Int} {pid : String}
    (h : BoundedBy reg now) :
    BoundedBy (reg.map fun p =>
      if p.1 = pid then (p.1, { p.2 with last_seen := now }) else p) now := by
  intro p hp
  rw [List.mem_map] at hp
  obtain ⟨q, hq, he⟩ := hp
  by_cases hqp : q.1 = pid
  · rw [if_pos hqp] at he
    rw [← he]
  · rw [if_neg hqp] at he
    rw [← he]
    exact h q hq

theorem boundedBy_delKey {reg : Registry} {t : Int} (k : String)
    (h : BoundedBy reg t) : BoundedBy (delKey reg k) t :=
  fun p hp => h p (List.mem_of_mem_filter hp)

theorem boundedBy_foldl_delKey (ids : List String) {reg : Registry} {t : Int}
    (h : BoundedBy reg t) : BoundedBy (ids.foldl delKey reg) t := by
  induction ids generalizing reg with
  | nil => exact h
  | cons i rest ih => exact ih (boundedBy_delKey i h)

/-- The lookup behaviour of the heartbeat in-place update. -/
theorem lookupAssoc_heartbeat_map (reg : Registry) (k q : String) (now : Int) :
    lookupAssoc (reg.map fun p =>
      if p.1 = k then (p.1, { p.2 with last_seen := now }) else p) q =
      if q = k then (lookupAssoc reg k).map
        (fun rec => { rec with last_seen := now }) else lookupAssoc reg q :=
  lookupAssoc_mapAt reg k q (fun rec => { rec with last_seen := now })

theorem applyOp_wf (reg : Registry) (op : TrackerOp) (t now : Int)
    (hwf : RegistryWF reg t) (hle : t ≤ now) :
    RegistryWF (applyOp reg op now) now := by
  obtain ⟨hnd, hbd⟩ := hwf
  have hbd' : BoundedBy reg now := boundedBy_mono hbd hle
  cases op with
  | register pid ip port =>
    show RegistryWF (dictSet reg pid
      { ip := ip, port := port, last_seen := now }) now
    exact ⟨nodup_keys_dictSet reg pid _ hnd, boundedBy_dictSet hbd' (le_refl now)⟩
  | heartbeat pid =>
    show RegistryWF (heartbeatPeer reg pid now).1 now
    unfold heartbeatPeer
    by_cases hc : containsKey reg pid = true
    · rw [if_pos hc]
      show RegistryWF (reg.map fun p =>
        if p.1 = pid then (p.1, { p.2 with last_seen := now }) else p) now
      exact ⟨nodup_keys_mapAt reg pid
        (fun rec => { rec with last_seen := now }) hnd,
        boundedBy_heartbeat_map hbd'⟩
    · rw [if_neg hc]
      exact ⟨hnd, hbd'⟩
  | unregister pid =>
    show RegistryWF (unregisterPeer reg pid).1 now
    unfold unregisterPeer
    by_cases hc : containsKey reg pid = true
    · rw [if_pos hc]
      exact ⟨nodup_keys_delKey reg pid hnd, boundedBy_delKey pid hbd'⟩
    · rw [if_neg hc]
      exact ⟨hnd, hbd'⟩
  | sweep timeout =>
    show RegistryWF ((inactiveIds reg now timeout).foldl delKey reg) now
    exact ⟨nodup_keys_foldl_delKey _ reg hnd, boundedBy_foldl_delKey _ hbd'⟩

theorem applyOp_last_seen_mono (reg : Registry) (op : TrackerOp) (now : Int)
    (hbd : BoundedBy reg now) (pid : String) (r r' : PeerRecord)
    (hbefore : lookupAssoc reg pid = some r)
    (hafter : lookupAssoc (applyOp reg op now) pid = some r') :
    r.last_seen ≤ r'.last_seen := by
  cases op with
  | register pid' ip port =>
    have hafter' : lookupAssoc (dictSet reg pid'
        { ip := ip, port := port, last_seen := now }) pid = some r' := hafter
    rw [lookupAssoc_dictSet] at hafter'
    by_cases hp : pid = pid'
    · rw [if_pos hp] at hafter'
      have hr' : r' = { ip := ip, port := port, last_seen := now } :=
        (Option.some.inj hafter').symm
      rw [hr']
      exact hbd (pid, r) (mem_of_lookupAssoc hbefore)
    · rw [if_neg hp] at hafter'
      rw [hbefore] at hafter'
      cases Option.some.inj hafter'
      exact le_refl _
  | heartbeat pid' =>
    have hafter' : lookupAssoc (heartbeatPeer reg pid' now).1 pid =
        some r' := hafter
    unfold heartbeatPeer at hafter'
    by_cases hc : containsKey reg pid' = true
    · rw [if_pos hc] at hafter'
      have hafter2 : lookupAssoc (reg.map fun p =>
          if p.1 = pid' then (p.1, { p.2 with last_seen := now }) else p) pid =
          some r' := hafter'
      rw [lookupAssoc_heartbeat_map] at hafter2
      by_cases hp : pid = pid'
      · rw [if_pos hp] at hafter2
        rw [← hp, hbefore] at hafter2
        have hr' : r' = { r with last_seen := now } := by
          simpa using hafter2.symm
        rw [hr']
        exact hbd (pid, r) (mem_of_lookupAssoc hbefore)
      · rw [if_neg hp] at hafter2
        rw [hbefore] at hafter2
        cases Option.some.inj hafter2
        exact le_refl _
    · rw [if_neg hc] at hafter'
      have h2 : lookupAssoc reg pid = some r' := hafter'
      rw [hbefore] at h2
      cases Option.some.inj h2
      exact le_refl _
  | unregister pid' =>
    have hafter' : lookupAssoc (unregisterPeer reg pid').1 pid =
        some r' := hafter
    unfold unregisterPeer at hafter'
    by_cases hc : containsKey reg pid' = true
    · rw [if_pos hc] at hafter'
      have hafter2 : lookupAssoc (delKey reg pid') pid = some r' := hafter'
      rw [lookupAssoc_delKey] at hafter2
      by_cases hp : pid = pid'
      · rw [if_pos hp] at hafter2
        exact absurd hafter2 (by simp)
      · rw [if_neg hp] at hafter2
        rw [hbefore] at hafter2
        cases Option.some.inj hafter2
        exact le_refl _
    · rw [if_neg hc] at hafter'
      have h2 : lookupAssoc reg pid = some r' := hafter'
      rw [hbefore] at h2
      cases Option.some.inj h2
      exact le_refl _
  | sweep timeout =>
    have hafter' : lookupAssoc ((inactiveIds reg now timeout).foldl delKey reg)
        pid = some r' := hafter
    rw [lookupAssoc_foldl_delKey] at hafter'
    by_cases hp : pid ∈ inactiveIds reg now timeout
    · rw [if_pos hp] at hafter'
      exact absurd hafter' (by simp)
    · rw [if_neg hp] at hafter'
      rw [hbefore] at hafter'
      cases Option.some.inj hafter'
      exact le_refl _

theorem runOps_wf (reg : Registry) (t0 : Int) (ops : List (TrackerOp × Int))
    (hwf : RegistryWF reg t0)
    (hclock : List.Chain' (fun a b => a ≤ b) (t0 :: ops.map Prod.snd)) :
    RegistryWF (runOps reg ops) (lastClock t0 ops) := by
  induction ops generalizing reg t0 with
  | nil => exact hwf
  | cons p rest ih =>
    obtain ⟨op, t⟩ := p
    rw [List.map_cons] at hclock
    have h1 : t0 ≤ t := (List.chain'_cons.mp hclock).1
    have h2 := (List.chain'_cons.mp hclock).2
    show RegistryWF (runOps (applyOp reg op t) rest) (lastClock t rest)
    exact ih (applyOp reg op t) t (applyOp_wf reg op t0 t hwf h1) h2

theorem lastClock_getLast (t0 : Int) (ops : List (TrackerOp × Int)) :
    (t0 :: ops.map Prod.snd).getLast? = some (lastClock t0 ops) := by
  induction ops generalizing t0 with
  | nil => rfl
  | cons p rest ih =>
    rw [List.map_cons, List.getLast?_cons_cons]
    exact ih p.2

/-! ### Claim theorems -/

/-- C1: one tick of the eviction sweep removes exactly the records whose
age `now - last_seen` is strictly greater than the timeout: every such
record is gone from the registry (hence from `list()`) after the tick, and
every record with age at most the timeout survives unchanged. -/
theorem sweep_evicts_exactly_expired (reg : Registry) (now timeout : Int)
    (hnd : NodupKeys reg) (pid : String) (r : PeerRecord)
    (hl : lookupAssoc reg pid = some r) :
    (now - r.last_seen > timeout →
      lookupAssoc (cleanupTick reg now timeout) pid = none) ∧
    (now - r.last_seen ≤ timeout →
      lookupAssoc (cleanupTick reg now timeout) pid = some r) := by
  unfold cleanupTick
  rw [lookupAssoc_foldl_delKey]
  constructor
  · intro hexp
    have hmem : (pid, r) ∈ reg := mem_of_lookupAssoc hl
    have hf : (pid, r) ∈ reg.filter (fun p => now - p.2.last_seen > timeout) := by
      rw [List.mem_filter]
      exact ⟨hmem, by simpa using hexp⟩
    have hin : pid ∈ inactiveIds reg now timeout := by
      unfold inactiveIds
      exact List.mem_map_of_mem Prod.fst hf
    rw [if_pos hin]
  · intro hle
    have hnin : pid ∉ inactiveIds reg now timeout := by
      intro hin
      unfold inactiveIds at hin
      rw [List.mem_map] at hin
      obtain ⟨p, hp, hfst⟩ := hin
      rw [List.mem_filter] at hp
      have hmem2 : (pid, p.2) ∈ reg := by
        rw [← hfst]
        simpa using hp.1
      have hlp : lookupAssoc reg pid = some p.2 := lookupAssoc_of_mem hnd hmem2
      rw [hl] at hlp
      have hpr : p.2 = r := (Option.some.inj hlp).symm
      have hcond : now - p.2.last_seen > timeout := by simpa using hp.2
      rw [hpr] at hcond
      exact absurd hcond (not_lt.mpr hle)
    rw [if_neg hnin]
    exact hl

/-- Witness for C1: a two-peer registry at clock 400 with the default
timeout 300; the peer last seen at 0 is evicted, the one at 350 stays. -/
theorem sweep_evicts_exactly_expired_witness :
    lookupAssoc (cleanupTick [("old", PeerRecord.mk "10.0.0.1" 6001 0),
      ("fresh", PeerRecord.mk "10.0.0.2" 6002 350)] 400 300) "old" = none ∧
    lookupAssoc (cleanupTick [("old", PeerRecord.mk "10.0.0.1" 6001 0),
      ("fresh", PeerRecord.mk "10.0.0.2" 6002 350)] 400 300) "fresh" =
      some (PeerRecord.mk "10.0.0.2" 6002 350) :=
  ⟨(sweep_evicts_exactly_expired
      [("old", PeerRecord.mk "10.0.0.1" 6001 0),
       ("fresh", PeerRecord.mk "10.0.0.2" 6002 350)] 400 300 (by decide)
      "old" (PeerRecord.mk "10.0.0.1" 6001 0) (by decide)).1 (by decide),
   (sweep_evicts_exactly_expired
      [("old", PeerRecord.mk "10.0.0.1" 6001 0),
       ("fresh", PeerRecord.mk "10.0.0.2" 6002 350)] 400 300 (by decide)
      "fresh" (PeerRecord.mk "10.0.0.2" 6002 350) (by decide)).2 (by decide)⟩

/-- C2: a second `register` for an already-present peer_id overwrites the
record's ip/port/last_seen in place (the key set is unchanged), always
replies success (no uniqueness conflict), and reports a `peer_count`
equal to the registry size before the call. -/
theorem reregister_overwrites (reg : Registry) (pid : String) (r : PeerRecord)
    (hl : lookupAssoc reg pid = some r) (ip' : String) (port' now : Int) :
    lookupAssoc (registerPeer reg pid ip' port' now).1 pid =
      some (PeerRecord.mk ip' port' now) ∧
    keys (registerPeer reg pid ip' port' now).1 = keys reg ∧
    (registerPeer reg pid ip' port' now).1.length = reg.length ∧
    (registerPeer reg pid ip' port' now).2.status = "success" ∧
    (registerPeer reg pid ip' port' now).2.peer_count = some reg.length := by
  have hc : containsKey reg pid = true := containsKey_of_lookupAssoc hl
  have hlen : (dictSet reg pid (PeerRecord.mk ip' port' now)).length = reg.length :=
    length_dictSet_of_contains reg pid _ hc
  refine ⟨?_, ?_, ?_, rfl, ?_⟩
  · rw [show (registerPeer reg pid ip' port' now).1 =
        dictSet reg pid (PeerRecord.mk ip' port' now) from rfl,
      lookupAssoc_dictSet, if_pos rfl]
  · exact keys_dictSet_of_contains reg pid _ hc
  · exact hlen
  · show some (dictSet reg pid (PeerRecord.mk ip' port' now)).length = some reg.length
    rw [hlen]

/-- Witness for C2: alice re-registers with a new ip/port at clock 200. -/
theorem reregister_overwrites_witness :
    lookupAssoc (registerPeer [("alice", PeerRecord.mk "10.0.0.1" 6001 100)]
      "alice" "10.0.0.9" 6009 200).1 "alice" =
      some (PeerRecord.mk "10.0.0.9" 6009 200) ∧
    keys (registerPeer [("alice", PeerRecord.mk "10.0.0.1" 6001 100)]
      "alice" "10.0.0.9" 6009 200).1 =
      keys [("alice", PeerRecord.mk "10.0.0.1" 6001 100)] ∧
    (registerPeer [("alice", PeerRecord.mk "10.0.0.1" 6001 100)]
      "alice" "10.0.0.9" 6009 200).1.length =
      [("alice", PeerRecord.mk "10.0.0.1" 6001 100)].length ∧
    (registerPeer [("alice", PeerRecord.mk "10.0.0.1" 6001 100)]
      "alice" "10.0.0.9" 6009 200).2.status = "success" ∧
    (registerPeer [("alice", PeerRecord.mk "10.0.0.1" 6001 100)]
      "alice" "10.0.0.9" 6009 200).2.peer_count =
      some [("alice", PeerRecord.mk "10.0.0.1" 6001 100)].length :=
  reregister_overwrites [("alice", PeerRecord.mk "10.0.0.1" 6001 100)]
    "alice" (PeerRecord.mk "10.0.0.1" 6001 100) (by decide) "10.0.0.9" 6009 200

/-- C3: `heartbeat` and `unregister` on an absent peer_id each reply the
NotFound-shaped error object, create no record, and leave the registry
exactly unchanged. -/
theorem notfound_leaves_registry_unchanged (reg : Registry) (pid : String)
    (now : Int) (h : lookupAssoc reg pid = none) :
    heartbeatPeer reg pid now =
      (reg, { status := "error", message := some "Peer not found" }) ∧
    unregisterPeer reg pid =
      (reg, { status := "error", message := some "Peer not found" }) := by
  have hc : containsKey reg pid = false := containsKey_eq_false_of_lookup_none h
  constructor
  · unfold heartbeatPeer
    rw [hc]
    simp
  · unfold unregisterPeer
    rw [hc]
    simp

/-- Witness for C3: heartbeat/unregister for a ghost peer on a one-peer
registry. -/
theorem notfound_leaves_registry_unchanged_witness :
    heartbeatPeer [("alice", PeerRecord.mk "10.0.0.1" 6001 100)] "ghost" 200 =
      ([("alice", PeerRecord.mk "10.0.0.1" 6001 100)],
       { status := "error", message := some "Peer not found" }) ∧
    unregisterPeer [("alice", PeerRecord.mk "10.0.0.1" 6001 100)] "ghost" =
      ([("alice", PeerRecord.mk "10.0.0.1" 6001 100)],
       { status := "error", message := some "Peer not found" }) :=
  notfound_leaves_registry_unchanged
    [("alice", PeerRecord.mk "10.0.0.1" 6001 100)] "ghost" 200 (by decide)

/-- C9: GET_PEERS always succeeds, replying a freshly built peer list with
exactly one entry per registered peer carrying that peer's ip and port,
a `peer_count` equal to the list length, and the registry unchanged. -/
theorem get_peers_snapshot (reg : Registry) (hnd : NodupKeys reg) :
    (getPeersReply reg).1 = reg ∧
    (getPeersReply reg).2.status = "success" ∧
    ∃ ps, (getPeersReply reg).2.peers = some ps ∧
      (getPeersReply reg).2.peer_count = some ps.length ∧
      ps.map PeerEntry.peer_id = keys reg ∧
      ∀ e ∈ ps, ∃ rec, lookupAssoc reg e.peer_id = some rec ∧
        rec.ip = e.ip ∧ rec.port = e.port := by
  refine ⟨rfl, rfl, reg.map (fun p => PeerEntry.mk p.1 p.2.ip p.2.port),
    ?_, ?_, ?_, ?_⟩
  · rfl
  · rfl
  · simp [keys, List.map_map]
  · intro e he
    rw [List.mem_map] at he
    obtain ⟨p, hp, hpe⟩ := he
    refine ⟨p.2, ?_, ?_, ?_⟩
    · rw [← hpe]
      exact lookupAssoc_of_mem hnd (by simpa using hp)
    · rw [← hpe]
    · rw [← hpe]

/-- C5: every malformed command line — empty line, wrong arity for
REGISTER/UNREGISTER/HEARTBEAT, non-integer REGISTER port, or an unknown
command word — is answered with a structured error object (status
"error" with a message) and leaves the registry unchanged; nothing
escapes the connection handler. -/
theorem malformed_request_safe (reg : Registry) (data : String) (now : Int)
    (hne : data ≠ "") (hm : malformedCommand data = true) :
    (handleClient reg data now).1 = reg ∧
    ∃ m, (handleClient reg data now).2 =
      some { status := "error", message := some m } := by
  unfold malformedCommand at hm
  unfold handleClient
  rw [if_neg hne]
  cases hsp : pySplit data with
  | nil =>
    exact ⟨rfl, "Empty command", rfl⟩
  | cons cmd rest =>
    rw [hsp] at hm
    have hm' : malformedParts cmd rest = true := hm
    show (dispatch reg cmd rest now).1 = reg ∧
      ∃ m, (dispatch reg cmd rest now).2 =
        some { status := "error", message := some m }
    unfold malformedParts at hm'
    unfold dispatch
    by_cases h1 : pyUpper cmd = "REGISTER"
    · rw [if_pos h1] at hm' ⊢
      unfold handleRegister
      by_cases h4 : (cmd :: rest).length < 4
      · rw [if_pos h4]
        exact ⟨rfl, _, rfl⟩
      · rw [if_neg h4]
        have hor : (cmd :: rest).length < 4 ∨
            pyInt ((cmd :: rest).getD 3 "") = none := by
          simpa [Option.isNone_iff_eq_none] using hm'
        have hnone : pyInt ((cmd :: rest).getD 3 "") = none :=
          hor.resolve_left h4
        rw [hnone]
        exact ⟨rfl, _, rfl⟩
    · rw [if_neg h1] at hm' ⊢
      by_cases h2 : pyUpper cmd = "GET_PEERS"
      · rw [if_pos h2] at hm'
        exact absurd hm' (by decide)
      · rw [if_neg h2] at hm' ⊢
        by_cases h3 : pyUpper cmd = "UNREGISTER"
        · rw [if_pos h3] at hm' ⊢
          unfold handleUnregister
          have hlt : (cmd :: rest).length < 2 := by simpa using hm'
          rw [if_pos hlt]
          exact ⟨rfl, _, rfl⟩
        · rw [if_neg h3] at hm' ⊢
          by_cases h5 : pyUpper cmd = "HEARTBEAT"
          · rw [if_pos h5] at hm' ⊢
            unfold handleHeartbeat
            have hlt : (cmd :: rest).length < 2 := by simpa using hm'
            rw [if_pos hlt]
            exact ⟨rfl, _, rfl⟩
          · rw [if_neg h5]
            exact ⟨rfl, _, rfl⟩

/-- Witness for C5: a REGISTER with a non-integer port against a one-peer
registry. -/
theorem malformed_request_safe_witness :
    ("REGISTER bob 10.0.0.2 sixty" ≠ "") ∧
    malformedCommand "REGISTER bob 10.0.0.2 sixty" = true ∧
    ((handleClient [("alice", PeerRecord.mk "10.0.0.1" 6001 100)]
        "REGISTER bob 10.0.0.2 sixty" 200).1 =
      [("alice", PeerRecord.mk "10.0.0.1" 6001 100)] ∧
     ∃ m, (handleClient [("alice", PeerRecord.mk "10.0.0.1" 6001 100)]
        "REGISTER bob 10.0.0.2 sixty" 200).2 =
      some { status := "error", message := some m }) :=
  ⟨by decide, by decide,
   malformed_request_safe [("alice", PeerRecord.mk "10.0.0.1" 6001 100)]
     "REGISTER bob 10.0.0.2 sixty" 200 (by decide) (by decide)⟩

/-- C7: processing a GET_PEERS response never puts the client's own
peer_id into its PeerInfo cache (self-filtering; the cache never holds
self in any reachable state, which is the absence hypothesis), and every
other returned peer ends up cached with exactly the returned ip/port. -/
theorem refresh_self_filtering (selfId : String)
    (cache : List (String × PeerInfo)) (peers : List PeerEntry)
    (hself : selfId ∉ keys cache)
    (hnodup : (peers.map PeerEntry.peer_id).Nodup) :
    lookupAssoc (updatePeerList selfId cache peers) selfId = none ∧
    ∀ p ∈ peers, p.peer_id ≠ selfId →
      lookupAssoc (updatePeerList selfId cache peers) p.peer_id =
        some (PeerInfo.mk p.ip p.port) := by
  constructor
  · rw [updatePeerList_lookup_self]
    exact (lookupAssoc_eq_none cache selfId).mpr hself
  · intro p hp hne
    exact updatePeerList_lookup_of_mem selfId cache peers hnodup p hp hne

/-- Witness for C7: alice refreshes against a reply listing alice and bob. -/
theorem refresh_self_filtering_witness :
    lookupAssoc (updatePeerList "alice" []
      [PeerEntry.mk "alice" "10.0.0.1" 6001,
       PeerEntry.mk "bob" "10.0.0.2" 6002]) "alice" = none ∧
    ∀ p ∈ [PeerEntry.mk "alice" "10.0.0.1" 6001,
           PeerEntry.mk "bob" "10.0.0.2" 6002], p.peer_id ≠ "alice" →
      lookupAssoc (updatePeerList "alice" []
        [PeerEntry.mk "alice" "10.0.0.1" 6001,
         PeerEntry.mk "bob" "10.0.0.2" 6002]) p.peer_id =
        some (PeerInfo.mk p.ip p.port) :=
  refresh_self_filtering "alice" []
    [PeerEntry.mk "alice" "10.0.0.1" 6001, PeerEntry.mk "bob" "10.0.0.2" 6002]
    (by decide) (by decide)

/-- C8: a refresh only inserts or overwrites — every peer_id cached before
is still cached after, and the cache size never decreases. -/
theorem refresh_never_deletes (selfId : String)
    (cache : List (String × PeerInfo)) (peers : List PeerEntry) :
    (∀ k ∈ keys cache, k ∈ keys (updatePeerList selfId cache peers)) ∧
    cache.length ≤ (updatePeerList selfId cache peers).length := by
  induction peers generalizing cache with
  | nil => exact ⟨fun k hk => hk, le_refl _⟩
  | cons a rest ih =>
    rw [updatePeerList_cons]
    by_cases ha : a.peer_id ≠ selfId
    · rw [if_pos ha]
      obtain ⟨ihm, ihl⟩ := ih (dictSet cache a.peer_id ⟨a.ip, a.port⟩)
      refine ⟨fun k hk => ihm k (mem_keys_dictSet cache a.peer_id k _ hk), ?_⟩
      exact le_trans (length_dictSet_ge cache a.peer_id _) ihl
    · rw [if_neg ha]
      exact ih cache

/-- C10: an inbound payload that is not valid JSON, or whose `type` field
is neither "direct" nor "broadcast", is silently dropped: the message
history (the only client state the handler touches) is unchanged and no
exception escapes. -/
theorem unknown_payload_dropped (decoded : Option (List (String × JsonVal)))
    (msgs : List Message) (now : Int)
    (h : ∀ d, decoded = some d →
      lookupAssoc d "type" ≠ some (JsonVal.jstr "direct") ∧
      lookupAssoc d "type" ≠ some (JsonVal.jstr "broadcast")) :
    processPeerMessage decoded msgs now = msgs := by
  cases decoded with
  | none => rfl
  | some d =>
    obtain ⟨h1, h2⟩ := h d rfl
    unfold processPeerMessage
    simp only
    rw [if_neg h1, if_neg h2]

/-- Witness for C10: a payload of type "ping" leaves a one-message
history untouched. -/
theorem unknown_payload_dropped_witness :
    processPeerMessage
      (some [("type", JsonVal.jstr "ping"), ("from", JsonVal.jstr "bob")])
      [Message.mk "direct" (some (JsonVal.jstr "bob"))
        (some (JsonVal.jstr "hi")) 100] 200 =
      [Message.mk "direct" (some (JsonVal.jstr "bob"))
        (some (JsonVal.jstr "hi")) 100] :=
  unknown_payload_dropped _ _ 200
    (fun d hd => by cases hd; exact ⟨by decide, by decide⟩)

/-- C4: a broadcast over a cache of N peers of which K fail to connect or
send reports `sent_count = N - K`; it attempts every cached peer —
in particular every uncached reachable peer gets dialed and cached even
when earlier peers failed — and, being a total function that catches
every per-peer failure, it never raises. -/
theorem broadcast_partial_failure (env : NetEnv) (st : ChatState)
    (h : (keys st.peer_info).Nodup) :
    (broadcastMessage env st).2 =
      (keys st.peer_info).length -
        ((keys st.peer_info).filter
          (fun p => !(broadcastSucceeds env st p))).length ∧
    ∀ pid ∈ keys st.peer_info,
      st.peer_connections.contains pid = false → env.connectOk pid = true →
        (broadcastMessage env st).1.peer_connections.contains pid = true := by
  constructor
  · have hcount := broadcast_fold_count env st (keys st.peer_info) st 0 h rfl
      (fun _ _ => rfl) (fun _ hp => hp)
    have hpart := length_filter_add_length_filter_not (keys st.peer_info)
      (broadcastSucceeds env st)
    unfold broadcastMessage
    rw [hcount]
    omega
  · intro pid hpid hnc hok
    exact broadcast_fold_connects env st (keys st.peer_info) st 0 h rfl
      (fun _ _ => rfl) (fun _ hp => hp) pid hpid hnc hok

/-- Witness for C4: three cached peers, the dial to bob fails, so the
report is 3 - 1 sends and the two reachable peers end up connected. -/
theorem broadcast_partial_failure_witness :
    (broadcastMessage witNetEnv witChatState).2 =
      (keys witChatState.peer_info).length -
        ((keys witChatState.peer_info).filter
          (fun p => !(broadcastSucceeds witNetEnv witChatState p))).length ∧
    ∀ pid ∈ keys witChatState.peer_info,
      witChatState.peer_connections.contains pid = false →
        witNetEnv.connectOk pid = true →
        (broadcastMessage witNetEnv witChatState).1.peer_connections.contains pid
          = true :=
  broadcast_partial_failure witNetEnv witChatState (by decide)

/-- C6: any sequence of register/heartbeat/unregister/sweep operations
with non-decreasing clocks preserves the registry invariant: the key set
stays duplicate-free (at most one record per peer_id), and at every step
a record that exists both before and after the operation never sees its
`last_seen` decrease. -/
theorem registry_invariant_preserved (reg : Registry) (t0 : Int)
    (ops : List (TrackerOp × Int)) (hwf : RegistryWF reg t0)
    (hclock : List.Chain' (fun a b => a ≤ b) (t0 :: ops.map Prod.snd)) :
    NodupKeys (runOps reg ops) ∧
    ∀ pre op t post, ops = pre ++ (op, t) :: post →
      ∀ pid r r', lookupAssoc (runOps reg pre) pid = some r →
        lookupAssoc (applyOp (runOps reg pre) op t) pid = some r' →
        r.last_seen ≤ r'.last_seen := by
  constructor
  · exact (runOps_wf reg t0 ops hwf hclock).1
  · intro pre op t post heq pid r r' hb ha
    subst heq
    rw [List.map_append, List.map_cons, ← List.cons_append,
      List.chain'_append] at hclock
    obtain ⟨hc1, hc2, hc3⟩ := hclock
    have hle : lastClock t0 pre ≤ t :=
      hc3 _ (lastClock_getLast t0 pre) _ rfl
    have hwfpre := runOps_wf reg t0 pre hwf hc1
    exact applyOp_last_seen_mono (runOps reg pre) op t
      (boundedBy_mono hwfpre.2 hle) pid r r' hb ha

/-- Witness for C6: the invariant holds along a concrete six-operation
run (register twice, heartbeat, re-register, unregister, sweep) from the
empty registry with clocks 10..400. -/
theorem registry_invariant_preserved_witness :
    NodupKeys (runOps [] witOps) ∧
    ∀ pre op t post, witOps = pre ++ (op, t) :: post →
      ∀ pid r r', lookupAssoc (runOps [] pre) pid = some r →
        lookupAssoc (applyOp (runOps [] pre) op t) pid = some r' →
        r.last_seen ≤ r'.last_seen :=
  registry_invariant_preserved [] 0 witOps (by decide)
    (by simp [witOps, List.chain'_cons])

/-- Witness for C9: the snapshot of a two-peer registry. -/
theorem get_peers_snapshot_witness :
    (getPeersReply [("alice", PeerRecord.mk "10.0.0.1" 6001 100),
      ("bob", PeerRecord.mk "10.0.0.2" 6002 150)]).1 =
      [("alice", PeerRecord.mk "10.0.0.1" 6001 100),
       ("bob", PeerRecord.mk "10.0.0.2" 6002 150)] ∧
    (getPeersReply [("alice", PeerRecord.mk "10.0.0.1" 6001 100),
      ("bob", PeerRecord.mk "10.0.0.2" 6002 150)]).2.status = "success" ∧
    ∃ ps, (getPeersReply [("alice", PeerRecord.mk "10.0.0.1" 6001 100),
      ("bob", PeerRecord.mk "10.0.0.2" 6002 150)]).2.peers = some ps ∧
      (getPeersReply [("alice", PeerRecord.mk "10.0.0.1" 6001 100),
        ("bob", PeerRecord.mk "10.0.0.2" 6002 150)]).2.peer_count =
        some ps.length ∧
      ps.map PeerEntry.peer_id =
        keys [("alice", PeerRecord.mk "10.0.0.1" 6001 100),
          ("bob", PeerRecord.mk "10.0.0.2" 6002 150)] ∧
      ∀ e ∈ ps, ∃ rec,
        lookupAssoc [("alice", PeerRecord.mk "10.0.0.1" 6001 100),
          ("bob", PeerRecord.mk "10.0.0.2" 6002 150)] e.peer_id = some rec ∧
        rec.ip = e.ip ∧ rec.port = e.port :=
  get_peers_snapshot [("alice", PeerRecord.mk "10.0.0.1" 6001 100),
    ("bob", PeerRecord.mk "10.0.0.2" 6002 150)] (by decide)

end P2PChat
